import Mathlib

/-!
Verification of the two-tier caching subsystem of foxy-mcp
(src/services/cache.service.ts, class CacheService).

The embedding is a shallow, executable translation of the TypeScript
source.  JavaScript machine state is made explicit:

* the lru-cache library instances become the `LRU` structure, a recency
  list (most recently used first) together with the configured `max`,
  `ttl` and `updateAgeOnGet` flag, following the library semantics used
  by the source: a fresh `get` moves the entry to the front (and, with
  `updateAgeOnGet`, restarts its ttl clock), a stale `get` deletes the
  entry and returns nothing, and `set` of a new key at capacity evicts
  the least-recently-used (last) entry;
* the persisted `Conf` document becomes `DiskCache`, four association
  lists mirroring the JavaScript objects (insertion-ordered,
  update-in-place);
* `Date.now()` becomes an explicit `now : Nat` argument;
* the deferred `setImmediate`/interval disk writes become explicit
  steps (`syncToDisk`, `flushDirty`) taken after the triggering
  operation returns, with a Bool per try/catch block recording whether
  the fallible I/O succeeded (`true`) or threw and was caught (`false`);
* the 16-hex-character MD5 fingerprint inside `getUrlKey` is modelled
  by the url string itself, an injective stand-in: no claim below
  depends on hash collisions.
-/

/-- Metadata of a cached API document (interface CachedApiMetadata). -/
structure CachedApiMetadata where
  apiId : Nat
  projectId : String
  name : String
  path : String
  method : String
  url : Option String
  cachedAt : Nat
deriving DecidableEq

/-- A cached entry: the (opaque) exported document plus metadata
(interface CachedApiEntry). -/
structure CachedApiEntry where
  document : String
  metadata : CachedApiMetadata
deriving DecidableEq

/-- A secondary-index entry pointing at a primary key
(interface ApiIndexEntry). -/
structure ApiIndexEntry where
  projectId : String
  apiId : Nat
deriving DecidableEq

/-- Which tier satisfied a lookup (the literal type 'memory' | 'disk'). -/
inductive CacheSource where
  | memory
  | disk
deriving DecidableEq

/-- startsWith on strings, as prefix of the character lists. -/
def strStartsWith (s pre : String) : Bool :=
  pre.data.isPrefixOf s.data

/-- Whether pat occurs as a contiguous sublist of l. -/
def listIsInfixOf {α : Type} [BEq α] : List α → List α → Bool
  | pat, [] => pat.isEmpty
  | pat, a :: as => pat.isPrefixOf (a :: as) || listIsInfixOf pat as

/-- includes on strings, as infix of the character lists. -/
def strContains (s pat : String) : Bool :=
  listIsInfixOf pat.data s.data

/-- Lookup in a JavaScript-object-like association list. -/
def amGet {β : Type} (m : List (String × β)) (k : String) : Option β :=
  (m.find? (fun p => p.1 == k)).map (fun p => p.2)

/-- Insert-or-replace in a JavaScript-object-like association list:
an existing key keeps its position, a new key is appended. -/
def amSet {β : Type} (m : List (String × β)) (k : String) (v : β) : List (String × β) :=
  if m.any (fun p => p.1 == k) then
    m.map (fun p => if p.1 == k then (k, v) else p)
  else
    m ++ [(k, v)]

/-- Deletion from a JavaScript-object-like association list. -/
def amErase {β : Type} (m : List (String × β)) (k : String) : List (String × β) :=
  m.filter (fun p => !(p.1 == k))

/-- Model of an lru-cache instance as configured by the source:
`items` is the recency list, most recently used first; each item carries
the key, the value and the start time of its ttl clock. -/
structure LRU (α : Type) where
  max : Nat
  ttl : Nat
  updateAgeOnGet : Bool
  items : List (String × α × Nat)
deriving DecidableEq

namespace LRU

/-- lru-cache `set`: remove any existing item for the key; if the cache
is then still at capacity (the key was new), evict the least-recently-used
(last) item; insert the new item at the front with a fresh ttl clock. -/
def set {α : Type} (l : LRU α) (now : Nat) (k : String) (v : α) : LRU α :=
  let rest := l.items.filter (fun p => !(p.1 == k))
  let rest := if rest.length == l.max then rest.dropLast else rest
  { l with items := (k, v, now) :: rest }

/-- lru-cache `get`: a miss leaves the cache unchanged; a stale item
(ttl clock older than ttl) is deleted and reported as a miss; a fresh hit
moves the item to the front and, with `updateAgeOnGet`, restarts its
ttl clock. -/
def get {α : Type} (l : LRU α) (now : Nat) (k : String) : LRU α × Option α :=
  match l.items.find? (fun p => p.1 == k) with
  | none => (l, none)
  | some (_, v, start) =>
    if l.ttl < now - start then
      ({ l with items := l.items.filter (fun p => !(p.1 == k)) }, none)
    else
      let st := if l.updateAgeOnGet then now else start
      ({ l with items := (k, v, st) :: l.items.filter (fun p => !(p.1 == k)) }, some v)

/-- lru-cache `delete`. -/
def del {α : Type} (l : LRU α) (k : String) : LRU α :=
  { l with items := l.items.filter (fun p => !(p.1 == k)) }

/-- lru-cache `clear`. -/
def clearAll {α : Type} (l : LRU α) : LRU α :=
  { l with items := [] }

end LRU

/-- The persisted cache document (interface CacheData), the value of the
Conf store's cache key. -/
structure DiskCache where
  apis : List (String × CachedApiEntry)
  urlIndex : List (String × ApiIndexEntry)
  nameIndex : List (String × ApiIndexEntry)
  pathIndex : List (String × ApiIndexEntry)
deriving DecidableEq

/-- Construction options (interface CacheOptions). -/
structure CacheOptions where
  enabled : Option Bool := none
  ttl : Option Nat := none
  maxSize : Option Nat := none
  persistent : Option Bool := none
  persistentMaxSize : Option Nat := none
  syncInterval : Option Nat := none
deriving DecidableEq

/-- Hit/miss counters (the private stats record of CacheService). -/
structure CacheStatsCounters where
  memHits : Nat
  memMisses : Nat
  persHits : Nat
  persMisses : Nat
deriving DecidableEq

/-- The state of a CacheService instance. -/
structure CacheService where
  enabled : Bool
  persistentEnabled : Bool
  ttl : Nat
  syncInterval : Nat
  memoryCache : LRU CachedApiEntry
  urlIndex : LRU ApiIndexEntry
  nameIndex : LRU ApiIndexEntry
  pathIndex : LRU ApiIndexEntry
  persistentStore : Option DiskCache
  dirtyKeys : List String
  stats : CacheStatsCounters
deriving DecidableEq

/-- JavaScript `x || d` for numeric options: 0 and undefined fall back
to the default. -/
def orDefault (o : Option Nat) (d : Nat) : Nat :=
  match o with
  | some n => if n == 0 then d else n
  | none => d

/-- getApiKey: the primary key api:projectId:apiId. -/
def getApiKey (projectId : String) (apiId : Nat) : String :=
  "api:" ++ projectId ++ ":" ++ toString apiId

/-- getUrlKey: url: followed by the url fingerprint (the fingerprint is
modelled by the url itself; see the file comment). -/
def getUrlKey (url : String) : String :=
  "url:" ++ url

/-- getNameKey: name:projectId:normalized, with trim-then-lowercase
normalization. -/
def getNameKey (projectId name : String) : String :=
  "name:" ++ projectId ++ ":" ++ (name.trim.toLower)

/-- getPathKey: path:projectId:METHOD:path, method uppercased, path
verbatim. -/
def getPathKey (projectId method path : String) : String :=
  "path:" ++ projectId ++ ":" ++ method.toUpper ++ ":" ++ path

namespace CacheService

/-- isExpired: age measured from metadata.cachedAt, strictly greater
than ttl.  The same predicate is applied to entries of either tier. -/
def isExpired (s : CacheService) (now : Nat) (e : CachedApiEntry) : Bool :=
  decide (s.ttl < now - e.metadata.cachedAt)

/-- cleanupExpiredDiskCache: rewrite the disk document keeping only
non-expired entries (indexes untouched). -/
def cleanupExpiredDiskCache (s : CacheService) (now : Nat) : CacheService :=
  match s.persistentStore with
  | none => s
  | some d =>
    let d2 := { d with apis := d.apis.filter (fun p => !(s.isExpired now p.2)) }
    { s with persistentStore := some d2 }

/-- removeFromDisk: delete one entry from the disk document. -/
def removeFromDisk (s : CacheService) (key : String) : CacheService :=
  match s.persistentStore with
  | none => s
  | some d =>
    { s with persistentStore := some ({ d with apis := amErase d.apis key }) }

/-- loadFromDisk: iterate the persisted entries in order; expired ones
are skipped and counted; a non-expired one is backfilled into the memory
tier while the memory tier is less than half full; if anything was
expired, run the cleanup pass. -/
def loadFromDisk (s : CacheService) (now : Nat) : CacheService :=
  match s.persistentStore with
  | none => s
  | some d =>
    let step := fun (acc : CacheService × Nat) (p : String × CachedApiEntry) =>
      if acc.1.isExpired now p.2 then (acc.1, acc.2 + 1)
      else if 2 * acc.1.memoryCache.items.length < acc.1.memoryCache.max then
        ({ acc.1 with memoryCache := acc.1.memoryCache.set now p.1 p.2 }, acc.2)
      else (acc.1, acc.2)
    let res := d.apis.foldl step (s, 0)
    if res.2 > 0 then res.1.cleanupExpiredDiskCache now else res.1

/-- The constructor.  `store` is the Conf instance's cache document,
or none when obtaining the storage instance threw (in which case the
service falls back to memory-only). -/
def init (opts : CacheOptions) (store : Option DiskCache) (now : Nat) : CacheService :=
  let enabledc := !(opts.enabled == some false)
  let persistentc := !(opts.persistent == some false)
  let ttlc := orDefault opts.ttl 3600000
  let syncIntervalc := orDefault opts.syncInterval 30000
  let memoryMaxSize := orDefault opts.maxSize 200
  let base : CacheService := {
    enabled := enabledc
    persistentEnabled := persistentc
    ttl := ttlc
    syncInterval := syncIntervalc
    memoryCache := { max := memoryMaxSize, ttl := ttlc, updateAgeOnGet := true, items := [] }
    urlIndex := { max := memoryMaxSize * 2, ttl := ttlc, updateAgeOnGet := true, items := [] }
    nameIndex := { max := memoryMaxSize * 2, ttl := ttlc, updateAgeOnGet := true, items := [] }
    pathIndex := { max := memoryMaxSize * 2, ttl := ttlc, updateAgeOnGet := true, items := [] }
    persistentStore := none
    dirtyKeys := []
    stats := ⟨0, 0, 0, 0⟩ }
  if persistentc then
    match store with
    | none => { base with persistentEnabled := false }
    | some d => ({ base with persistentStore := some d }).loadFromDisk now
  else base

/-- setApi: the synchronous part of a write.  Stores the entry in the
memory tier, marks the primary key dirty, writes the url index (only
when the metadata has a non-empty url: the source's guard is the JS
truthiness test if (url), which the empty string fails), the name index
and the path index.  The setImmediate-deferred disk write is the
separate step `syncToDisk`. -/
def setApi (s : CacheService) (now : Nat) (entry : CachedApiEntry) : CacheService :=
  if !s.enabled then s
  else
    let m := entry.metadata
    let mainKey := getApiKey m.projectId m.apiId
    let idx : ApiIndexEntry := { projectId := m.projectId, apiId := m.apiId }
    let s1 := { s with
      memoryCache := s.memoryCache.set now mainKey entry
      dirtyKeys := if s.dirtyKeys.contains mainKey then s.dirtyKeys
                   else s.dirtyKeys ++ [mainKey] }
    let s2 :=
      match m.url with
      | some u =>
        if u.isEmpty then s1
        else { s1 with urlIndex := s1.urlIndex.set now (getUrlKey u) idx }
      | none => s1
    { s2 with
      nameIndex := s2.nameIndex.set now (getNameKey m.projectId m.name) idx
      pathIndex := s2.pathIndex.set now (getPathKey m.projectId m.method m.path) idx }

/-- syncIndexesToDisk: regenerate the three disk index maps for one
entry (the url one only for a non-empty url, the same JS truthiness
guard as in setApi).  `ok` is false when the persistent write threw;
the failure is caught inside this method, leaving the disk
unchanged. -/
def syncIndexesToDisk (s : CacheService) (entry : CachedApiEntry) (ok : Bool) : CacheService :=
  match s.persistentStore with
  | none => s
  | some d =>
    if !ok then s
    else
      let m := entry.metadata
      let idx : ApiIndexEntry := { projectId := m.projectId, apiId := m.apiId }
      let d1 :=
        match m.url with
        | some u =>
          if u.isEmpty then d
          else { d with urlIndex := amSet d.urlIndex (getUrlKey u) idx }
        | none => d
      let d2 := { d1 with
        nameIndex := amSet d1.nameIndex (getNameKey m.projectId m.name) idx
        pathIndex := amSet d1.pathIndex (getPathKey m.projectId m.method m.path) idx }
      { s with persistentStore := some d2 }

/-- syncToDisk: the deferred disk write for one dirty key.  `okApis`
is false when writing the entry map threw: the error is caught and
logged, nothing is written and the key stays dirty.  On success the
indexes are synced (their own try/catch, flag `okIdx`) and the key is
removed from the dirty set. -/
def syncToDisk (s : CacheService) (key : String) (entry : CachedApiEntry)
    (okApis okIdx : Bool) : CacheService :=
  match s.persistentStore with
  | none => s
  | some d =>
    if !okApis then s
    else
      let s1 := { s with persistentStore := some ({ d with apis := amSet d.apis key entry }) }
      let s2 := s1.syncIndexesToDisk entry okIdx
      { s2 with dirtyKeys := s2.dirtyKeys.filter (fun k => !(k == key)) }

/-- One tick of the sync timer (also the loop run by shutdown): flush
every dirty key's current memory-tier entry to disk. -/
def flushDirty (s : CacheService) (now : Nat) (okApis okIdx : Bool) : CacheService :=
  s.dirtyKeys.foldl
    (fun acc key =>
      let r := acc.memoryCache.get now key
      let acc1 := { acc with memoryCache := r.1 }
      match r.2 with
      | some entry => acc1.syncToDisk key entry okApis okIdx
      | none => acc1)
    s

/-- The lower half of getApiInternal: the disk probe, backfill of the
memory tier on a fresh disk hit, deletion of an expired disk entry, and
the terminal memory-miss count. -/
def getApiFromDisk (s : CacheService) (now : Nat) (key : String) :
    CacheService × Option (CachedApiEntry × CacheSource) :=
  match s.persistentStore with
  | some d =>
    if s.persistentEnabled then
      match amGet d.apis key with
      | some entry =>
        if s.isExpired now entry then
          let s1 := s.removeFromDisk key
          ({ s1 with stats := { s1.stats with memMisses := s1.stats.memMisses + 1 } }, none)
        else
          ({ s with
              stats := { s.stats with persHits := s.stats.persHits + 1 }
              memoryCache := s.memoryCache.set now key entry },
           some (entry, CacheSource.disk))
      | none =>
        ({ s with stats := { s.stats with memMisses := s.stats.memMisses + 1 } }, none)
    else ({ s with stats := { s.stats with memMisses := s.stats.memMisses + 1 } }, none)
  | none => ({ s with stats := { s.stats with memMisses := s.stats.memMisses + 1 } }, none)

/-- getApiInternal: memory probe first (a hit requires both a fresh
lru item and a non-expired cachedAt), then the disk probe. -/
def getApiInternal (s : CacheService) (now : Nat) (projectId : String) (apiId : Nat) :
    CacheService × Option (CachedApiEntry × CacheSource) :=
  let key := getApiKey projectId apiId
  let r := s.memoryCache.get now key
  let s1 := { s with memoryCache := r.1 }
  match r.2 with
  | some entry =>
    if !(s1.isExpired now entry) then
      ({ s1 with stats := { s1.stats with memHits := s1.stats.memHits + 1 } },
       some (entry, CacheSource.memory))
    else s1.getApiFromDisk now key
  | none => s1.getApiFromDisk now key

/-- getApi: the public primary-key lookup. -/
def getApi (s : CacheService) (now : Nat) (projectId : String) (apiId : Nat) :
    CacheService × Option (CachedApiEntry × CacheSource) :=
  if !s.enabled then (s, none)
  else s.getApiInternal now projectId apiId

/-- The index-probe block shared (verbatim, three times) by findByUrl,
findByName and findByPath: consult the memory index lru (with the usual
get side effects), and on a miss the matching disk index map, counting
a disk hit and backfilling the memory index.  `getL`/`setL` select the
index lru inside the state and `diskIdx` the matching disk map; the
three call sites instantiate them with the url, name and path
indexes. -/
def indexProbe (s : CacheService) (now : Nat) (key : String)
    (getL : CacheService → LRU ApiIndexEntry)
    (setL : CacheService → LRU ApiIndexEntry → CacheService)
    (diskIdx : DiskCache → List (String × ApiIndexEntry)) :
    CacheService × Option ApiIndexEntry :=
  let r := (getL s).get now key
  let s1 := setL s r.1
  match r.2 with
  | some i => (s1, some i)
  | none =>
    match s1.persistentStore with
    | some d =>
      if s1.persistentEnabled then
        match amGet (diskIdx d) key with
        | some i =>
          let s2 := setL s1 ((getL s1).set now key i)
          ({ s2 with stats := { s2.stats with persHits := s2.stats.persHits + 1 } },
           some i)
        | none => (s1, none)
      else (s1, none)
    | none => (s1, none)

/-- findByUrl: resolve through the url index (memory, then disk with
backfill of the memory index), then the primary lookup. -/
def findByUrl (s : CacheService) (now : Nat) (url : String) :
    CacheService × Option (CachedApiEntry × CacheSource) :=
  if !s.enabled then (s, none)
  else
    let probe := indexProbe s now (getUrlKey url)
      (fun s => s.urlIndex) (fun s l => { s with urlIndex := l }) (fun d => d.urlIndex)
    match probe.2 with
    | none =>
      ({ probe.1 with stats := { probe.1.stats with memMisses := probe.1.stats.memMisses + 1 } },
       none)
    | some i => probe.1.getApiInternal now i.projectId i.apiId

/-- fuzzySearchByName: linear scan of the memory tier's recency list
(most recently used first, no recency update; items whose lru clock is
stale are skipped, as the lru iteration used by the source's
for-of loop does) for an entry of the project whose lowercased name or
path contains the lowercased, trimmed keyword. -/
def fuzzySearchByName (s : CacheService) (now : Nat) (projectId keyword : String) :
    Option CachedApiEntry :=
  let lowerKeyword := keyword.toLower.trim
  (s.memoryCache.items.find? (fun p =>
      !(s.memoryCache.ttl < now - p.2.2) &&
      strStartsWith p.1 ("api:" ++ projectId ++ ":") &&
      (strContains p.2.1.metadata.name.toLower lowerKeyword ||
       strContains p.2.1.metadata.path.toLower lowerKeyword))).map
    (fun p => p.2.1)

/-- findByName: exact normalized match through the name index (memory,
then disk with backfill), then the primary lookup; if that fails, the
memory-only fuzzy scan. -/
def findByName (s : CacheService) (now : Nat) (projectId name : String) :
    CacheService × Option (CachedApiEntry × CacheSource) :=
  if !s.enabled then (s, none)
  else
    let probe := indexProbe s now (getNameKey projectId name)
      (fun s => s.nameIndex) (fun s l => { s with nameIndex := l }) (fun d => d.nameIndex)
    let fuzzyStep : CacheService → CacheService × Option (CachedApiEntry × CacheSource) :=
      fun s2 =>
        match s2.fuzzySearchByName now projectId name with
        | some e =>
          ({ s2 with stats := { s2.stats with memHits := s2.stats.memHits + 1 } },
           some (e, CacheSource.memory))
        | none =>
          ({ s2 with stats := { s2.stats with memMisses := s2.stats.memMisses + 1 } },
           none)
    match probe.2 with
    | some i =>
      let r2 := probe.1.getApiInternal now projectId i.apiId
      match r2.2 with
      | some hit => (r2.1, some hit)
      | none => fuzzyStep r2.1
    | none => fuzzyStep probe.1

/-- findByPath: resolve through the path index (memory, then disk with
backfill), then the primary lookup. -/
def findByPath (s : CacheService) (now : Nat) (projectId method path : String) :
    CacheService × Option (CachedApiEntry × CacheSource) :=
  if !s.enabled then (s, none)
  else
    let probe := indexProbe s now (getPathKey projectId method path)
      (fun s => s.pathIndex) (fun s l => { s with pathIndex := l }) (fun d => d.pathIndex)
    match probe.2 with
    | none =>
      ({ probe.1 with stats := { probe.1.stats with memMisses := probe.1.stats.memMisses + 1 } },
       none)
    | some i => probe.1.getApiInternal now i.projectId i.apiId

/-- clear: wipe both tiers, all indexes and the counters. -/
def clear (s : CacheService) : CacheService :=
  { s with
    memoryCache := s.memoryCache.clearAll
    urlIndex := s.urlIndex.clearAll
    nameIndex := s.nameIndex.clearAll
    pathIndex := s.pathIndex.clearAll
    persistentStore := s.persistentStore.map (fun _ => ⟨[], [], [], []⟩)
    stats := ⟨0, 0, 0, 0⟩ }

/-- clearProject: delete every memory-tier entry whose key starts with
the project's key namespace (returning how many were deleted), delete
every disk entry whose metadata carries the project id, and reset all
six index maps (memory and disk) wholesale.  The source iterates
memoryCache.keys(), whose lru iteration skips items with a stale lru
clock, so such items survive the sweep uncounted; the model sweeps them
too — the difference is invisible to every later lookup, since a
stale item is never returned and is deleted by the next get that finds
it. -/
def clearProject (s : CacheService) (projectId : String) : CacheService × Nat :=
  let pfx := "api:" ++ projectId ++ ":"
  let count := (s.memoryCache.items.filter (fun p => strStartsWith p.1 pfx)).length
  let s1 := { s with memoryCache :=
    { s.memoryCache with items := s.memoryCache.items.filter (fun p => !(strStartsWith p.1 pfx)) } }
  let s2 :=
    match s1.persistentStore with
    | none => s1
    | some d =>
      let d2 := { d with
        apis := d.apis.filter (fun p => !(p.2.metadata.projectId == projectId))
        urlIndex := ([] : List (String × ApiIndexEntry))
        nameIndex := ([] : List (String × ApiIndexEntry))
        pathIndex := ([] : List (String × ApiIndexEntry)) }
      { s1 with persistentStore := some d2 }
  let s3 := { s2 with
    urlIndex := s2.urlIndex.clearAll
    nameIndex := s2.nameIndex.clearAll
    pathIndex := s2.pathIndex.clearAll }
  (s3, count)

/-- clearByUrl: resolve the url index (memory, then disk, no stats),
then delete the main entry from both tiers and the url-index entry from
both tiers.  The name and path indexes are left untouched (the source
comment announces clearing them but no clearing code follows). -/
def clearByUrl (s : CacheService) (now : Nat) (url : String) : CacheService × Bool :=
  if !s.enabled then (s, false)
  else
    let urlKey := getUrlKey url
    let r := s.urlIndex.get now urlKey
    let s1 := { s with urlIndex := r.1 }
    let idx : Option ApiIndexEntry :=
      match r.2 with
      | some i => some i
      | none =>
        match s1.persistentStore with
        | some d => if s1.persistentEnabled then amGet d.urlIndex urlKey else none
        | none => none
    match idx with
    | none => (s1, false)
    | some i =>
      let mainKey := getApiKey i.projectId i.apiId
      let s2 := { s1 with memoryCache := s1.memoryCache.del mainKey }
      let s3 :=
        match s2.persistentStore with
        | none => s2
        | some d =>
          let d2 := { d with apis := amErase d.apis mainKey, urlIndex := amErase d.urlIndex urlKey }
          { s2 with persistentStore := some d2 }
      ({ s3 with urlIndex := s3.urlIndex.del urlKey }, true)

end CacheService

/-- Pure observation of the value returned by the primary lookup: the
memory item (if any) must be lru-fresh and non-expired, otherwise the
disk entry (if any, with persistence enabled) must be non-expired.
Proved equal to the value component of getApi below, and used to
compare lookups across state changes. -/
def lookupSpec (now : Nat) (enabled : Bool) (mem : Option (CachedApiEntry × Nat))
    (mttl : Nat) (expiredOf : CachedApiEntry → Bool) (diskEnabled : Bool)
    (diskLookup : Option CachedApiEntry) : Option (CachedApiEntry × CacheSource) :=
  if !enabled then none
  else
    let memHit :=
      match mem with
      | some (v, start) =>
        if mttl < now - start then none
        else if expiredOf v then none else some v
      | none => none
    match memHit with
    | some v => some (v, CacheSource.memory)
    | none =>
      if diskEnabled then
        match diskLookup with
        | some v => if expiredOf v then none else some (v, CacheSource.disk)
        | none => none
      else none

/-! ## Concrete fixtures used by witnesses and counterexamples -/

/-- A concrete entry with a url, cached at time 100. -/
def entA : CachedApiEntry :=
  { document := "docA",
    metadata := { apiId := 1, projectId := "1", name := "Login", path := "/login",
                  method := "post", url := some "https://x/1/1", cachedAt := 100 } }

/-- A concrete entry without a url. -/
def entNoUrl : CachedApiEntry :=
  { document := "docB",
    metadata := { apiId := 2, projectId := "1", name := "Register", path := "/register",
                  method := "post", url := none, cachedAt := 100 } }

/-- A concrete entry cached at time 0 (stale once now exceeds the ttl). -/
def entStale : CachedApiEntry :=
  { document := "docOld",
    metadata := { apiId := 1, projectId := "1", name := "Login", path := "/login",
                  method := "post", url := some "https://x/1/1", cachedAt := 0 } }

/-- A concrete entry whose metadata url is the empty string (falsy in
the source's JS guard). -/
def entEmptyUrl : CachedApiEntry :=
  { document := "docE",
    metadata := { apiId := 4, projectId := "1", name := "Empty", path := "/empty",
                  method := "get", url := some "", cachedAt := 100 } }

/-- A concrete entry belonging to project 2. -/
def entOther : CachedApiEntry :=
  { document := "docC",
    metadata := { apiId := 3, projectId := "2", name := "Other", path := "/other",
                  method := "get", url := none, cachedAt := 100 } }

/-- The state used by the C6 counterexample: one entry cached at time 0
present in both tiers (loaded from disk at construction time 50). -/
def c6state : CacheService :=
  CacheService.init {} (some ⟨[("api:1:1", entStale)], [], [], []⟩) 50

/-- The state used by the C9 evaluation: one entry written through
setApi and flushed to disk, populating both tiers and all indexes. -/
def c9state : CacheService :=
  ((CacheService.init {} (some ⟨[], [], [], []⟩) 0).setApi 100 entA).syncToDisk
    (getApiKey "1" 1) entA true true

/-- The state used by the C5 counterexample: the url-index entry only on
disk, the entry itself memory-resident (backfilled at construction). -/
def c5state : CacheService :=
  CacheService.init {}
    (some ⟨[("api:1:1", entA)], [(getUrlKey "https://x/1/1", ⟨"1", 1⟩)], [], []⟩) 200

/-- An entry of project 1:2, used to exhibit the key-prefix collision in
clearProject. -/
def entColon : CachedApiEntry :=
  { document := "docD",
    metadata := { apiId := 3, projectId := "1:2", name := "Colon", path := "/colon",
                  method := "get", url := none, cachedAt := 100 } }

/-- The state used by the C7 counterexample: a memory-only cache holding
one entry of project 1:2. -/
def c7state : CacheService :=
  (CacheService.init { persistent := some false } none 0).setApi 100 entColon

/-! ## Support lemmas -/

/-- A successful association-list lookup comes from a member with the
looked-up key. -/
theorem amGet_eq_some {β : Type} {m : List (String × β)} {k : String} {v : β}
    (h : amGet m k = some v) : ∃ p ∈ m, p.1 = k ∧ p.2 = v := by
  unfold amGet at h
  cases hf : m.find? (fun p => p.1 == k) with
  | none => simp [hf] at h
  | some p =>
    simp only [hf, Option.map_some] at h
    have hm := List.mem_of_find?_eq_some hf
    have hp := List.find?_some hf
    exact ⟨p, hm, by simpa using hp, by simpa using h⟩

/-- A list is a prefix of itself followed by anything. -/
theorem isPrefixOf_append_self {α : Type} [BEq α] [LawfulBEq α] :
    ∀ (l t : List α), l.isPrefixOf (l ++ t) = true := by
  intro l t
  induction l with
  | nil => simp [List.isPrefixOf]
  | cons a as ih => simp [List.isPrefixOf, ih]

/-- Appending to a string appends the character lists. -/
theorem string_data_append (a b : String) : (a ++ b).data = a.data ++ b.data := by
  cases a
  cases b
  rfl

/-- Any extension of a string within its key namespace starts with the
namespace. -/
theorem strStartsWith_append (a t : String) : strStartsWith (a ++ t) a = true := by
  unfold strStartsWith
  rw [string_data_append]
  exact isPrefixOf_append_self a.data t.data

/-- A hit of the lru-cache `get` returns the value of a stored item with
the looked-up key. -/
theorem LRU.get_eq_some {α : Type} {l : LRU α} {now : Nat} {k : String}
    {l2 : LRU α} {v : α} (h : l.get now k = (l2, some v)) :
    ∃ p ∈ l.items, p.1 = k ∧ p.2.1 = v := by
  unfold LRU.get at h
  cases hf : l.items.find? (fun p => p.1 == k) with
  | none => rw [hf] at h; simp at h
  | some p =>
    rw [hf] at h
    obtain ⟨k1, v1, st⟩ := p
    have hmem := List.mem_of_find?_eq_some hf
    have hk : k1 = k := by simpa using List.find?_some hf
    by_cases hst : l.ttl < now - st
    · simp [hst] at h
    · simp [hst] at h
      exact ⟨(k1, v1, st), hmem, hk, h.2⟩

/-- If every disk entry stored under the key is expired, the disk probe
reports absent. -/
theorem getApiFromDisk_snd_none_of_expired (s : CacheService) (now : Nat) (key : String)
    (hd : ∀ d, s.persistentStore = some d → ∀ p ∈ d.apis, p.1 = key →
            s.isExpired now p.2 = true) :
    (s.getApiFromDisk now key).2 = none := by
  unfold CacheService.getApiFromDisk
  cases hps : s.persistentStore with
  | none => rfl
  | some d =>
    by_cases hpe : s.persistentEnabled
    · cases hg : amGet d.apis key with
      | none => simp [hpe, hg]
      | some e =>
        obtain ⟨p, hm, hk, hv⟩ := amGet_eq_some hg
        have hexp : s.isExpired now e = true := hv ▸ hd d hps p hm hk
        simp [hpe, hg, hexp]
    · simp [hpe]

/-- The write path preserves the control fields and stores the entry in
the memory tier under its primary key. -/
theorem setApi_core (s : CacheService) (now : Nat) (e : CachedApiEntry)
    (he : s.enabled = true) :
    (s.setApi now e).memoryCache =
      s.memoryCache.set now (getApiKey e.metadata.projectId e.metadata.apiId) e ∧
    (s.setApi now e).enabled = true ∧
    (s.setApi now e).ttl = s.ttl ∧
    (s.setApi now e).persistentEnabled = s.persistentEnabled ∧
    (s.setApi now e).persistentStore = s.persistentStore := by
  cases hu : e.metadata.url with
  | none => simp [CacheService.setApi, he, hu]
  | some u =>
    by_cases hemp : u.isEmpty
    · simp [CacheService.setApi, he, hu, hemp]
    · have h2 : u.isEmpty = false := by simpa using hemp
      simp [CacheService.setApi, he, hu, h2]

/-- Reading a just-set key within the lru ttl returns the set value. -/
theorem LRU.get_set_self_snd {α : Type} (l : LRU α) (now1 now2 : Nat) (k : String)
    (v : α) (h : now2 - now1 ≤ l.ttl) : ((l.set now1 k v).get now2 k).2 = some v := by
  simp [LRU.set, LRU.get, Nat.not_lt.mpr h]

/-- A lookup skips a leading pair with a different key. -/
theorem amGet_cons_ne {β : Type} (p : String × β) (t : List (String × β)) (k : String)
    (h : (p.1 == k) = false) : amGet (p :: t) k = amGet t k := by
  unfold amGet
  rw [List.find?_cons_of_neg _ (by simp [h])]

/-- Writing a key into a JavaScript-object-like map makes the key map
to the written value. -/
theorem amGet_amSet_self {β : Type} (m : List (String × β)) (k : String) (v : β) :
    amGet (amSet m k v) k = some v := by
  induction m with
  | nil => simp [amGet, amSet]
  | cons p t ih =>
    by_cases hp : (p.1 == k) = true
    · have hany : ((p :: t).any (fun q => q.1 == k)) = true := by
        simp [List.any_cons, hp]
      have hstep : amSet (p :: t) k v
          = (k, v) :: t.map (fun q => if q.1 == k then (k, v) else q) := by
        unfold amSet
        rw [hany]
        simp only [if_true, eq_self_iff_true, List.map_cons, hp]
      rw [hstep]
      unfold amGet
      rw [List.find?_cons_of_pos _ (by simp)]
      rfl
    · have hpf : (p.1 == k) = false := by simpa using hp
      by_cases ht : (t.any (fun q => q.1 == k)) = true
      · have hany : ((p :: t).any (fun q => q.1 == k)) = true := by
          simp [List.any_cons, ht]
        have hstep : amSet (p :: t) k v = p :: amSet t k v := by
          unfold amSet
          rw [hany, ht]
          simp [hpf]
          intro hcon
          exact absurd hcon (by simpa using hpf)
        rw [hstep, amGet_cons_ne _ _ _ hpf]
        exact ih
      · have htf : (t.any (fun q => q.1 == k)) = false := by
          simp only [Bool.not_eq_true] at ht
          exact ht
        have hany : ((p :: t).any (fun q => q.1 == k)) = false := by
          simp [List.any_cons, hpf, htf]
        have hstep : amSet (p :: t) k v = p :: amSet t k v := by
          unfold amSet
          rw [hany, htf]
          simp
        rw [hstep, amGet_cons_ne _ _ _ hpf]
        exact ih

/-- A failed (caught) disk write leaves the whole service state
unchanged; in particular the key stays in the dirty set. -/
theorem syncToDisk_fail (s : CacheService) (key : String) (e : CachedApiEntry)
    (okIdx : Bool) : s.syncToDisk key e false okIdx = s := by
  unfold CacheService.syncToDisk
  cases hps : s.persistentStore <;> simp [hps]

/-- Syncing the indexes touches neither the disk entry map nor the
dirty set. -/
theorem syncIndexesToDisk_frame (s : CacheService) (e : CachedApiEntry) (ok : Bool) :
    (s.syncIndexesToDisk e ok).persistentStore.map (fun d => d.apis) =
      s.persistentStore.map (fun d => d.apis) ∧
    (s.syncIndexesToDisk e ok).dirtyKeys = s.dirtyKeys := by
  unfold CacheService.syncIndexesToDisk
  cases hps : s.persistentStore with
  | none => simp [hps]
  | some d =>
    by_cases hok : ok
    · cases hu : e.metadata.url with
      | none => simp [hps, hok, hu]
      | some u =>
        by_cases hemp : u.isEmpty
        · simp [hps, hok, hu, hemp]
        · have h2 : u.isEmpty = false := by simpa using hemp
          simp [hps, hok, hu, h2]
    · have : ok = false := by simpa using hok
      simp [hps, this]

/-- No string survives a filter that removes it. -/
theorem not_mem_filter_ne_self (l : List String) (key : String) :
    key ∉ l.filter (fun k => !(k == key)) := by
  intro h
  have := List.of_mem_filter h
  simp at this

/-- A successful disk write makes the key durable and removes it from
the dirty set. -/
theorem syncToDisk_ok (s : CacheService) (key : String) (e : CachedApiEntry)
    (d : DiskCache) (hps : s.persistentStore = some d) (okIdx : Bool) :
    (∃ d2, (s.syncToDisk key e true okIdx).persistentStore = some d2 ∧
        amGet d2.apis key = some e) ∧
    key ∉ (s.syncToDisk key e true okIdx).dirtyKeys := by
  unfold CacheService.syncToDisk
  rw [hps]
  simp only [Bool.not_true, Bool.false_eq_true, if_false]
  set s1 : CacheService :=
    { s with persistentStore := some ({ d with apis := amSet d.apis key e }) } with hs1
  obtain ⟨hapis, hdirty⟩ := syncIndexesToDisk_frame s1 e okIdx
  have h1 : s1.persistentStore.map (fun d => d.apis) = some (amSet d.apis key e) := rfl
  rw [h1] at hapis
  constructor
  · cases hps2 : (s1.syncIndexesToDisk e okIdx).persistentStore with
    | none => rw [hps2] at hapis; simp at hapis
    | some d2 =>
      rw [hps2] at hapis
      simp only [Option.map_some', Option.some.injEq] at hapis
      refine ⟨d2, rfl, ?_⟩
      rw [hapis]
      exact amGet_amSet_self _ _ _
  · show key ∉ (s1.syncIndexesToDisk e okIdx).dirtyKeys.filter (fun k => !(k == key))
    exact not_mem_filter_ne_self _ _

/-- Erasing a key makes its lookup fail. -/
theorem amGet_amErase_self {β : Type} (m : List (String × β)) (k : String) :
    amGet (amErase m k) k = none := by
  unfold amGet amErase
  rw [List.find?_eq_none.mpr]
  · rfl
  · intro p hp
    have := List.of_mem_filter hp
    simpa using this

/-- When every disk entry under the key is expired, the disk probe
leaves the memory tier untouched (no backfill happens). -/
theorem getApiFromDisk_memory_frame_of_expired (s : CacheService) (now : Nat)
    (key : String)
    (hd : ∀ d, s.persistentStore = some d → ∀ p ∈ d.apis, p.1 = key →
            s.isExpired now p.2 = true) :
    (s.getApiFromDisk now key).1.memoryCache = s.memoryCache := by
  unfold CacheService.getApiFromDisk CacheService.removeFromDisk
  cases hps : s.persistentStore with
  | none => rfl
  | some d =>
    by_cases hpe : s.persistentEnabled
    · cases hg : amGet d.apis key with
      | none => simp [hpe, hg]
      | some e =>
        obtain ⟨p, hm, hk, hv⟩ := amGet_eq_some hg
        have hexp : s.isExpired now e = true := hv ▸ hd d hps p hm hk
        simp [hpe, hg, hexp, hps]
    · simp [hpe]

/-- The disk probe on an expired disk entry misses and deletes the
entry from the disk document. -/
theorem getApiFromDisk_expired_removes (s : CacheService) (now : Nat) (key : String)
    (d : DiskCache) (hps : s.persistentStore = some d)
    (hpe : s.persistentEnabled = true) (eDisk : CachedApiEntry)
    (hg : amGet d.apis key = some eDisk) (hexp : s.isExpired now eDisk = true) :
    (s.getApiFromDisk now key).2 = none ∧
    (s.getApiFromDisk now key).1.persistentStore =
      some ({ d with apis := amErase d.apis key }) := by
  unfold CacheService.getApiFromDisk CacheService.removeFromDisk
  rw [hps]
  simp [hpe, hg, hexp, hps]

/-- The disk probe either counts one memory miss (and reports absent)
or counts one disk hit (and reports the disk entry); no other counter
moves. -/
theorem getApiFromDisk_stats (s : CacheService) (now : Nat) (key : String) :
    ((s.getApiFromDisk now key).2 = none ∧
       (s.getApiFromDisk now key).1.stats =
         { s.stats with memMisses := s.stats.memMisses + 1 }) ∨
    (∃ e, (s.getApiFromDisk now key).2 = some (e, CacheSource.disk) ∧
       (s.getApiFromDisk now key).1.stats =
         { s.stats with persHits := s.stats.persHits + 1 }) := by
  unfold CacheService.getApiFromDisk CacheService.removeFromDisk
  cases hps : s.persistentStore with
  | none => left; exact ⟨rfl, rfl⟩
  | some d =>
    by_cases hpe : s.persistentEnabled
    · cases hg : amGet d.apis key with
      | none => left; constructor <;> simp [hpe, hg]
      | some e =>
        by_cases hexp : s.isExpired now e
        · left; constructor <;> simp [hpe, hg, hexp, hps]
        · have hexpf : s.isExpired now e = false := by simpa using hexp
          right; refine ⟨e, ?_, ?_⟩ <;> simp [hpe, hg, hexpf]
    · have hpef : s.persistentEnabled = false := by simpa using hpe
      left; constructor <;> simp [hpef]

/-- A primary lookup moves exactly one counter: the memory hit counter,
the disk hit counter, or the memory miss counter, matching the returned
tier. -/
theorem getApiInternal_stats (s : CacheService) (now : Nat) (projectId : String)
    (apiId : Nat) :
    ((s.getApiInternal now projectId apiId).2 = none ∧
       (s.getApiInternal now projectId apiId).1.stats =
         { s.stats with memMisses := s.stats.memMisses + 1 }) ∨
    (∃ e, (s.getApiInternal now projectId apiId).2 = some (e, CacheSource.memory) ∧
       (s.getApiInternal now projectId apiId).1.stats =
         { s.stats with memHits := s.stats.memHits + 1 }) ∨
    (∃ e, (s.getApiInternal now projectId apiId).2 = some (e, CacheSource.disk) ∧
       (s.getApiInternal now projectId apiId).1.stats =
         { s.stats with persHits := s.stats.persHits + 1 }) := by
  simp only [CacheService.getApiInternal]
  cases hr : s.memoryCache.get now (getApiKey projectId apiId) with
  | mk mc got =>
    cases got with
    | none =>
      rcases getApiFromDisk_stats { s with memoryCache := mc } now
          (getApiKey projectId apiId) with ⟨h1, h2⟩ | ⟨e, h1, h2⟩
      · exact Or.inl ⟨h1, h2⟩
      · exact Or.inr (Or.inr ⟨e, h1, h2⟩)
    | some e =>
      by_cases hexp : CacheService.isExpired { s with memoryCache := mc } now e
      · simp only [hexp, Bool.not_true, Bool.false_eq_true, if_false]
        rcases getApiFromDisk_stats { s with memoryCache := mc } now
            (getApiKey projectId apiId) with ⟨h1, h2⟩ | ⟨e2, h1, h2⟩
        · exact Or.inl ⟨h1, h2⟩
        · exact Or.inr (Or.inr ⟨e2, h1, h2⟩)
      · have hexpf : CacheService.isExpired { s with memoryCache := mc } now e = false := by
          simpa using hexp
        refine Or.inr (Or.inl ⟨e, ?_, ?_⟩) <;> simp [hexpf]

/-- A primary lookup never touches the disk miss counter. -/
theorem getApiInternal_persMisses (s : CacheService) (now : Nat) (projectId : String)
    (apiId : Nat) :
    (s.getApiInternal now projectId apiId).1.stats.persMisses = s.stats.persMisses := by
  rcases getApiInternal_stats s now projectId apiId with ⟨-, h⟩ | ⟨e, -, h⟩ | ⟨e, -, h⟩ <;>
    rw [h]

/-- The index probe leaves the counters unchanged or counts exactly one
disk hit, provided the index setter does not touch the counters (as
none of the three instantiations do). -/
theorem indexProbe_stats (s : CacheService) (now : Nat) (key : String)
    (getL : CacheService → LRU ApiIndexEntry)
    (setL : CacheService → LRU ApiIndexEntry → CacheService)
    (diskIdx : DiskCache → List (String × ApiIndexEntry))
    (hstats : ∀ s2 l, (setL s2 l).stats = s2.stats) :
    (CacheService.indexProbe s now key getL setL diskIdx).1.stats = s.stats ∨
    (CacheService.indexProbe s now key getL setL diskIdx).1.stats =
      { s.stats with persHits := s.stats.persHits + 1 } := by
  simp only [CacheService.indexProbe]
  cases hr : (getL s).get now key with
  | mk ui idx0 =>
    cases idx0 with
    | some i => exact Or.inl (hstats s ui)
    | none =>
      cases hd : (setL s ui).persistentStore with
      | none => exact Or.inl (hstats s ui)
      | some d =>
        by_cases hpe : (setL s ui).persistentEnabled
        · simp only [hpe, if_true]
          cases hg : amGet (diskIdx d) key with
          | none => exact Or.inl (hstats s ui)
          | some i =>
            right
            show ({ setL (setL s ui) ((getL (setL s ui)).set now key i) with
                stats := _ }).stats = _
            rw [hstats, hstats]
        · have hpef : (setL s ui).persistentEnabled = false := by simpa using hpe
          simp only [hpef, Bool.false_eq_true, if_false]
          exact Or.inl (hstats s ui)

/-- The url lookup never touches the disk miss counter. -/
theorem findByUrl_persMisses (s : CacheService) (now : Nat) (url : String) :
    (s.findByUrl now url).1.stats.persMisses = s.stats.persMisses := by
  simp only [CacheService.findByUrl]
  split
  · rfl
  · have hp := indexProbe_stats s now (getUrlKey url)
      (fun s => s.urlIndex) (fun s l => { s with urlIndex := l }) (fun d => d.urlIndex)
      (fun s2 l => rfl)
    cases hpr : (CacheService.indexProbe s now (getUrlKey url)
        (fun s => s.urlIndex) (fun s l => { s with urlIndex := l })
        (fun d => d.urlIndex)).2 with
    | none => rcases hp with h | h <;> simp [h]
    | some i =>
      rw [getApiInternal_persMisses]
      rcases hp with h | h <;> rw [h]

/-- The name lookup (exact and fuzzy) never touches the disk miss
counter. -/
theorem findByName_persMisses (s : CacheService) (now : Nat) (projectId name : String) :
    (s.findByName now projectId name).1.stats.persMisses = s.stats.persMisses := by
  simp only [CacheService.findByName]
  split
  · rfl
  · have hp := indexProbe_stats s now (getNameKey projectId name)
      (fun s => s.nameIndex) (fun s l => { s with nameIndex := l }) (fun d => d.nameIndex)
      (fun s2 l => rfl)
    set P := CacheService.indexProbe s now (getNameKey projectId name)
      (fun s => s.nameIndex) (fun s l => { s with nameIndex := l }) (fun d => d.nameIndex)
      with hP
    cases hpr : P.2 with
    | none =>
      cases hf : P.1.fuzzySearchByName now projectId name with
      | some e => rcases hp with h | h <;> simp [h]
      | none => rcases hp with h | h <;> simp [h]
    | some i =>
      have h2 := getApiInternal_persMisses P.1 now projectId i.apiId
      cases hr2 : (P.1.getApiInternal now projectId i.apiId).2 with
      | some hit => rcases hp with h | h <;> simp [hr2, h2, h]
      | none =>
        cases hf : (P.1.getApiInternal now projectId i.apiId).1.fuzzySearchByName
            now projectId name with
        | some e => rcases hp with h | h <;> simp [hr2, hf, h2, h]
        | none => rcases hp with h | h <;> simp [hr2, hf, h2, h]

/-- The path lookup never touches the disk miss counter. -/
theorem findByPath_persMisses (s : CacheService) (now : Nat)
    (projectId method path : String) :
    (s.findByPath now projectId method path).1.stats.persMisses = s.stats.persMisses := by
  simp only [CacheService.findByPath]
  split
  · rfl
  · have hp := indexProbe_stats s now (getPathKey projectId method path)
      (fun s => s.pathIndex) (fun s l => { s with pathIndex := l }) (fun d => d.pathIndex)
      (fun s2 l => rfl)
    cases hpr : (CacheService.indexProbe s now (getPathKey projectId method path)
        (fun s => s.pathIndex) (fun s l => { s with pathIndex := l })
        (fun d => d.pathIndex)).2 with
    | none => rcases hp with h | h <;> simp [h]
    | some i =>
      rw [getApiInternal_persMisses]
      rcases hp with h | h <;> rw [h]

/-- A filter that keeps every element satisfying the search predicate
does not change the result of the search. -/
theorem find?_filter_eq {α : Type} (l : List α) (p q : α → Bool)
    (h : ∀ a ∈ l, p a = true → q a = true) :
    (l.filter q).find? p = l.find? p := by
  induction l with
  | nil => rfl
  | cons a t ih =>
    by_cases hq : q a = true
    · rw [List.filter_cons_of_pos hq]
      by_cases hp : p a = true
      · rw [List.find?_cons_of_pos _ hp, List.find?_cons_of_pos _ hp]
      · have hpf : p a = false := by simpa using hp
        rw [List.find?_cons_of_neg _ (by simp [hpf]), List.find?_cons_of_neg _ (by simp [hpf])]
        exact ih (fun b hb hpb => h b (List.mem_cons_of_mem a hb) hpb)
    · have hpf : p a = false := by
        cases hpa : p a
        · rfl
        · exact absurd (h a (List.mem_cons_self a t) hpa) hq
      rw [List.filter_cons_of_neg (by simpa using hq),
        List.find?_cons_of_neg _ (by simp [hpf])]
      exact ih (fun b hb hpb => h b (List.mem_cons_of_mem a hb) hpb)

/-- Lists split uniquely at the first occurrence of a separator absent
from both left parts. -/
theorem append_sep_inj {c : Char} : ∀ {l1 l2 r1 r2 : List Char},
    c ∉ l1 → c ∉ l2 → l1 ++ c :: r1 = l2 ++ c :: r2 → l1 = l2 := by
  intro l1
  induction l1 with
  | nil =>
    intro l2 r1 r2 h1 h2 h
    cases l2 with
    | nil => rfl
    | cons b t =>
      simp only [List.nil_append, List.cons_append, List.cons.injEq] at h
      exact absurd (h.1 ▸ List.mem_cons_self b t) h2
  | cons a t1 ih =>
    intro l2 r1 r2 h1 h2 h
    cases l2 with
    | nil =>
      simp only [List.nil_append, List.cons_append, List.cons.injEq] at h
      exact absurd (h.1.symm ▸ List.mem_cons_self a t1) h1
    | cons b t2 =>
      simp only [List.cons_append, List.cons.injEq] at h
      have ht := ih (fun hm => h1 (List.mem_cons_of_mem a hm))
        (fun hm => h2 (List.mem_cons_of_mem b hm)) h.2
      rw [h.1, ht]

/-- The character-list layout of a primary key. -/
theorem getApiKey_data (p : String) (n : Nat) :
    (getApiKey p n).data = ("api:").data ++ p.data ++ [':'] ++ (toString n).data := by
  unfold getApiKey
  rw [string_data_append, string_data_append, string_data_append]

/-- Primary keys of colon-free project ids agree only on equal project
ids. -/
theorem getApiKey_inj_projectId {p1 p2 : String} {n1 n2 : Nat}
    (h1 : ':' ∉ p1.data) (h2 : ':' ∉ p2.data)
    (h : getApiKey p1 n1 = getApiKey p2 n2) : p1 = p2 := by
  have hd := congrArg String.data h
  rw [getApiKey_data, getApiKey_data] at hd
  rw [List.append_assoc, List.append_assoc, List.append_assoc, List.append_assoc] at hd
  have hd2 := List.append_cancel_left hd
  simp only [List.cons_append, List.nil_append] at hd2
  have hdata := append_sep_inj h1 h2 hd2
  cases p1
  cases p2
  exact congrArg String.mk (by simpa using hdata)

/-- The value component of the disk probe, as a pure expression over
the state. -/
theorem getApiFromDisk_snd_spec (s : CacheService) (now : Nat) (key : String) :
    (s.getApiFromDisk now key).2 =
      (if s.persistentEnabled && s.persistentStore.isSome then
        match s.persistentStore.bind (fun d => amGet d.apis key) with
        | some v => if s.isExpired now v then none else some (v, CacheSource.disk)
        | none => none
      else none) := by
  unfold CacheService.getApiFromDisk
  cases hps : s.persistentStore with
  | none => simp [hps]
  | some d =>
    by_cases hpe : s.persistentEnabled
    · simp only [hps, hpe, Option.isSome_some, Bool.and_true, Option.some_bind, if_true]
      cases hg : amGet d.apis key with
      | none => simp [hg]
      | some v =>
        by_cases hexp : s.isExpired now v
        · simp [hg, hexp]
        · have h2 : s.isExpired now v = false := by simpa using hexp
          simp [hg, h2]
    · have h2 : s.persistentEnabled = false := by simpa using hpe
      simp [hps, h2]

/-- The value component of getApi equals the pure observation
lookupSpec applied to the state's components. -/
theorem getApi_snd_eq_lookupSpec (s : CacheService) (now : Nat) (projectId : String)
    (apiId : Nat) :
    (s.getApi now projectId apiId).2 =
      lookupSpec now s.enabled
        ((s.memoryCache.items.find? (fun p => p.1 == getApiKey projectId apiId)).map
          (fun p => p.2))
        s.memoryCache.ttl (fun v => s.isExpired now v)
        (s.persistentEnabled && s.persistentStore.isSome)
        (s.persistentStore.bind (fun d => amGet d.apis (getApiKey projectId apiId))) := by
  unfold CacheService.getApi lookupSpec
  by_cases he : s.enabled
  case neg =>
    have h2 : s.enabled = false := by simpa using he
    simp [h2]
  simp only [he, Bool.not_true, Bool.false_eq_true, if_false]
  simp only [CacheService.getApiInternal, LRU.get]
  cases hf : s.memoryCache.items.find? (fun p => p.1 == getApiKey projectId apiId) with
  | none =>
    simp only [Option.map_none']
    rw [getApiFromDisk_snd_spec]
  | some p =>
    obtain ⟨k, v, st⟩ := p
    simp only [Option.map_some']
    by_cases hst : s.memoryCache.ttl < now - st
    · rw [if_pos hst, if_pos hst]
      rw [getApiFromDisk_snd_spec]
      rfl
    · rw [if_neg hst, if_neg hst]
      by_cases hexp : s.isExpired now v
      · have hexp2 : CacheService.isExpired { s with memoryCache :=
            { s.memoryCache with items := (getApiKey projectId apiId, v, if s.memoryCache.updateAgeOnGet then now else st) :: s.memoryCache.items.filter (fun p => !(p.1 == getApiKey projectId apiId)) } } now v = true := hexp
        simp only [hexp2, hexp, Bool.not_true, Bool.false_eq_true, if_false, if_true]
        rw [getApiFromDisk_snd_spec]
        rfl
      · have hexpf : s.isExpired now v = false := by simpa using hexp
        have hexp2 : CacheService.isExpired { s with memoryCache :=
            { s.memoryCache with items := (getApiKey projectId apiId, v, if s.memoryCache.updateAgeOnGet then now else st) :: s.memoryCache.items.filter (fun p => !(p.1 == getApiKey projectId apiId)) } } now v = false := hexpf
        simp only [hexp2, hexpf, Bool.not_false, if_true, Bool.false_eq_true, if_false]

/-- What clearProject does to each component of the state. -/
theorem clearProject_state (s : CacheService) (pid : String) :
    (s.clearProject pid).1.memoryCache.items =
      s.memoryCache.items.filter
        (fun p => !(strStartsWith p.1 ("api:" ++ pid ++ ":"))) ∧
    (s.clearProject pid).1.memoryCache.ttl = s.memoryCache.ttl ∧
    (s.clearProject pid).1.enabled = s.enabled ∧
    (s.clearProject pid).1.persistentEnabled = s.persistentEnabled ∧
    (s.clearProject pid).1.ttl = s.ttl ∧
    (s.clearProject pid).1.persistentStore =
      s.persistentStore.map (fun d =>
        { d with
          apis := d.apis.filter (fun p => !(p.2.metadata.projectId == pid))
          urlIndex := ([] : List (String × ApiIndexEntry))
          nameIndex := ([] : List (String × ApiIndexEntry))
          pathIndex := ([] : List (String × ApiIndexEntry)) }) := by
  unfold CacheService.clearProject
  cases hps : s.persistentStore with
  | none => simp [hps, LRU.clearAll]
  | some d => simp [hps, LRU.clearAll]

/-! ## Claims -/

/-- C1 counterexample: an entry whose cachedAt timestamp (0) is already
older than the ttl is written at time 3600001 and read back at the same
instant, so no time at all has elapsed since the write; the lookup
nevertheless returns absent, because expiry is measured from cachedAt,
not from the write. -/
theorem C1_roundtrip_counterexample :
    3600001 - 3600001 ≤ (CacheService.init {} none 0).ttl ∧
    (CacheService.init {} none 0).enabled = true ∧
    (((CacheService.init {} none 0).setApi 3600001 entStale).getApi
        3600001 entStale.metadata.projectId entStale.metadata.apiId).2 = none := by
  decide

/-- C1 (amended): an entry written via setApi and read back via getApi
with the same projectId and apiId returns a memory-tier hit carrying the
written entry (hence the written document), provided the ttl has elapsed
neither since the write nor since the entry's cachedAt timestamp (the
two instants coincide for entries built by the service's callers). -/
theorem C1_roundtrip_amended (s : CacheService) (now1 now2 : Nat) (e : CachedApiEntry)
    (he : s.enabled = true) (hmt : s.memoryCache.ttl = s.ttl)
    (h1 : now2 - now1 ≤ s.ttl) (h2 : now2 - e.metadata.cachedAt ≤ s.ttl) :
    ((s.setApi now1 e).getApi now2 e.metadata.projectId e.metadata.apiId).2 =
      some (e, CacheSource.memory) := by
  obtain ⟨hmc, hen, htt, -, -⟩ := setApi_core s now1 e he
  have hget : ((s.setApi now1 e).memoryCache.get now2
      (getApiKey e.metadata.projectId e.metadata.apiId)).2 = some e := by
    rw [hmc]
    exact LRU.get_set_self_snd _ _ _ _ _ (by rw [hmt]; exact h1)
  unfold CacheService.getApi
  simp only [hen, Bool.not_true, Bool.false_eq_true, if_false,
    CacheService.getApiInternal]
  cases hr : (s.setApi now1 e).memoryCache.get now2
      (getApiKey e.metadata.projectId e.metadata.apiId) with
  | mk mc got =>
    rw [hr] at hget
    simp only at hget
    subst hget
    simp [CacheService.isExpired, htt, Nat.not_lt.mpr h2]

/-- C3: the memory-tier store never exceeds its configured maximum:
a set keeps the size within max; a set of a new key at capacity yields
exactly the new item in front of all old items except the last
(least-recently-accessed) one, which is evicted; a get hit moves the
accessed item to the front of the recency order, so recency is measured
by last access, not last write; the bound is preserved by the service's
write path. -/
theorem C3_memory_tier_lru_bound :
    (∀ (l : LRU CachedApiEntry) (now : Nat) (k : String) (v : CachedApiEntry),
       0 < l.max → l.items.length ≤ l.max → (l.set now k v).items.length ≤ l.max) ∧
    (∀ (l : LRU CachedApiEntry) (now : Nat) (k : String) (v : CachedApiEntry),
       l.items.length = l.max → k ∉ l.items.map (fun p => p.1) →
       (l.set now k v).items = (k, v, now) :: l.items.dropLast) ∧
    (∀ (l : LRU CachedApiEntry) (now : Nat) (k : String) (l2 : LRU CachedApiEntry)
       (v : CachedApiEntry), l.get now k = (l2, some v) →
       ∃ st, l2.items = (k, v, st) :: l.items.filter (fun p => !(p.1 == k))) ∧
    (∀ (s : CacheService) (now : Nat) (e : CachedApiEntry),
       0 < s.memoryCache.max → s.memoryCache.items.length ≤ s.memoryCache.max →
       (s.setApi now e).memoryCache.items.length ≤ s.memoryCache.max) := by
  have hbound : ∀ (l : LRU CachedApiEntry) (now : Nat) (k : String) (v : CachedApiEntry),
      0 < l.max → l.items.length ≤ l.max → (l.set now k v).items.length ≤ l.max := by
    intro l now k v hpos hlen
    unfold LRU.set
    have hfl : (l.items.filter (fun p => !(p.1 == k))).length ≤ l.items.length :=
      List.length_filter_le _ _
    by_cases hcap : (l.items.filter (fun p => !(p.1 == k))).length = l.max
    · simp only [hcap, beq_self_eq_true, if_true, List.length_cons, List.length_dropLast,
        hcap]
      omega
    · have : (l.items.filter (fun p => !(p.1 == k))).length < l.max := by
        omega
      simp only [List.length_cons]
      rw [if_neg (by simpa using hcap)]
      simpa using this
  refine ⟨hbound, ?_, ?_, ?_⟩
  · intro l now k v hlen hnk
    have hfl : l.items.filter (fun p => !(p.1 == k)) = l.items := by
      apply List.filter_eq_self.mpr
      intro p hp
      have hne : p.1 ≠ k := by
        intro heq
        exact hnk (heq ▸ List.mem_map_of_mem (fun q => q.1) hp)
      simpa using hne
    unfold LRU.set
    simp only [hfl, hlen, beq_self_eq_true, if_true]
  · intro l now k l2 v h
    unfold LRU.get at h
    cases hf : l.items.find? (fun p => p.1 == k) with
    | none => rw [hf] at h; simp at h
    | some p =>
      rw [hf] at h
      obtain ⟨k1, v1, st⟩ := p
      simp only at h
      by_cases hst : l.ttl < now - st
      · rw [if_pos hst] at h
        simp at h
      · rw [if_neg hst] at h
        have hl2 : l2 = { l with items := (k, v1, if l.updateAgeOnGet then now else st) :: l.items.filter (fun p => !(p.1 == k)) } := by
          have := congrArg Prod.fst h
          simpa using this.symm
        have hv : v1 = v := by
          have := congrArg Prod.snd h
          simpa using this
        exact ⟨_, by rw [hl2, ← hv]⟩
  · intro s now e hpos hlen
    by_cases he : s.enabled
    · obtain ⟨hmc, -, -, -, -⟩ := setApi_core s now e he
      rw [hmc]
      exact hbound _ _ _ _ hpos hlen
    · have : s.setApi now e = s := by simp [CacheService.setApi, he]
      rw [this]
      exact hlen

/-- C3 witness: eviction of the least-recently-accessed item when a new
key is inserted at capacity, at a concrete input. -/
theorem C3_memory_tier_lru_bound_witness :
    (LRU.set ⟨2, 1000, true, [("api:1:1", entA, 0), ("api:1:2", entNoUrl, 1)]⟩
        2 "api:2:3" entOther).items =
      ("api:2:3", entOther, 2) ::
        [("api:1:1", entA, 0), ("api:1:2", entNoUrl, 1)].dropLast :=
  C3_memory_tier_lru_bound.2.1
    ⟨2, 1000, true, [("api:1:1", entA, 0), ("api:1:2", entNoUrl, 1)]⟩
    2 "api:2:3" entOther (by decide) (by decide)

/-- C4 counterexample: a cache configured with persistentMaxSize 1
whose disk tier holds two non-expired entries; the cleanup pass leaves
both on disk, so the disk entry count (2) exceeds the configured
maximum (1): no entry-count bound is enforced. -/
theorem C4_disk_bound_counterexample :
    orDefault (CacheOptions.persistentMaxSize { persistentMaxSize := some 1 }) 500 = 1 ∧
    ((CacheService.init { persistentMaxSize := some 1 }
          (some ⟨[("api:1:1", entA), ("api:1:2", entNoUrl)], [], [], []⟩)
          150).cleanupExpiredDiskCache 150).persistentStore.map
        (fun d => d.apis.length) = some 2 := by
  decide

/-- C4 (amended): the periodic cleanup pass removes exactly the expired
entries from the disk tier (and touches nothing else of the disk
document); the configured maximum disk entry count is not enforced by
it, or by anything else. -/
theorem C4_cleanup_drops_exactly_expired (s : CacheService) (now : Nat) :
    (s.cleanupExpiredDiskCache now).persistentStore =
      s.persistentStore.map (fun d =>
        { d with apis := d.apis.filter (fun p => !(s.isExpired now p.2)) }) := by
  unfold CacheService.cleanupExpiredDiskCache
  cases hps : s.persistentStore with
  | none => simp [hps]
  | some d => simp [hps]

/-- C8 counterexample: writing an entry whose metadata has no url, or
whose url is the empty string (falsy under the source's if (url)
guard), does not update the url index (it stays empty), so setApi does
not update all three indexes for every entry. -/
theorem C8_put_counterexample :
    entNoUrl.metadata.url = none ∧
    ((CacheService.init {} none 0).setApi 100 entNoUrl).memoryCache.items.length = 1 ∧
    ((CacheService.init {} none 0).setApi 100 entNoUrl).urlIndex.items = [] ∧
    entEmptyUrl.metadata.url = some "" ∧
    ((CacheService.init {} none 0).setApi 100 entEmptyUrl).memoryCache.items.length = 1 ∧
    ((CacheService.init {} none 0).setApi 100 entEmptyUrl).urlIndex.items = [] := by
  decide

/-- C8 (amended): setApi (a total function: it throws nothing) stores
the entry in the memory tier, updates the name and path indexes always
and the url index exactly when the entry's metadata has a non-empty
url (the source's guard is the JS truthiness test, failed by an absent
and by an empty url alike), marks the primary key dirty, and does not
touch the disk; a failing deferred disk write is caught and changes
nothing, so the key stays dirty and the entry stays memory-resident; a
later successful sync makes the entry durable and removes the key from
the dirty set. -/
theorem C8_put_never_fails_amended (s : CacheService) (now : Nat) (e : CachedApiEntry)
    (he : s.enabled = true) :
    (s.setApi now e).memoryCache =
      s.memoryCache.set now (getApiKey e.metadata.projectId e.metadata.apiId) e ∧
    (s.setApi now e).nameIndex =
      s.nameIndex.set now (getNameKey e.metadata.projectId e.metadata.name)
        ⟨e.metadata.projectId, e.metadata.apiId⟩ ∧
    (s.setApi now e).pathIndex =
      s.pathIndex.set now
        (getPathKey e.metadata.projectId e.metadata.method e.metadata.path)
        ⟨e.metadata.projectId, e.metadata.apiId⟩ ∧
    (∀ u, e.metadata.url = some u → u.isEmpty = false → (s.setApi now e).urlIndex =
      s.urlIndex.set now (getUrlKey u) ⟨e.metadata.projectId, e.metadata.apiId⟩) ∧
    (∀ u, e.metadata.url = some u → u.isEmpty = true →
      (s.setApi now e).urlIndex = s.urlIndex) ∧
    (e.metadata.url = none → (s.setApi now e).urlIndex = s.urlIndex) ∧
    getApiKey e.metadata.projectId e.metadata.apiId ∈ (s.setApi now e).dirtyKeys ∧
    (s.setApi now e).persistentStore = s.persistentStore ∧
    (∀ e2 okIdx, (s.setApi now e).syncToDisk
        (getApiKey e.metadata.projectId e.metadata.apiId) e2 false okIdx
      = s.setApi now e) ∧
    (∀ d, s.persistentStore = some d →
      (∃ d2, ((s.setApi now e).syncToDisk
            (getApiKey e.metadata.projectId e.metadata.apiId) e true true).persistentStore
          = some d2 ∧
        amGet d2.apis (getApiKey e.metadata.projectId e.metadata.apiId) = some e) ∧
      getApiKey e.metadata.projectId e.metadata.apiId ∉
        ((s.setApi now e).syncToDisk
          (getApiKey e.metadata.projectId e.metadata.apiId) e true true).dirtyKeys) := by
  obtain ⟨hmc, -, -, -, hpsv⟩ := setApi_core s now e he
  have hdk : (s.setApi now e).dirtyKeys =
      (if s.dirtyKeys.contains (getApiKey e.metadata.projectId e.metadata.apiId)
       then s.dirtyKeys
       else s.dirtyKeys ++ [getApiKey e.metadata.projectId e.metadata.apiId]) := by
    cases hu : e.metadata.url with
    | none => simp [CacheService.setApi, he, hu]
    | some u =>
      by_cases hemp : u.isEmpty
      · simp [CacheService.setApi, he, hu, hemp]
      · have h2 : u.isEmpty = false := by simpa using hemp
        simp [CacheService.setApi, he, hu, h2]
  refine ⟨hmc, ?_, ?_, ?_, ?_, ?_, ?_, hpsv, ?_, ?_⟩
  · cases hu : e.metadata.url with
    | none => simp [CacheService.setApi, he, hu]
    | some u =>
      by_cases hemp : u.isEmpty
      · simp [CacheService.setApi, he, hu, hemp]
      · have h2 : u.isEmpty = false := by simpa using hemp
        simp [CacheService.setApi, he, hu, h2]
  · cases hu : e.metadata.url with
    | none => simp [CacheService.setApi, he, hu]
    | some u =>
      by_cases hemp : u.isEmpty
      · simp [CacheService.setApi, he, hu, hemp]
      · have h2 : u.isEmpty = false := by simpa using hemp
        simp [CacheService.setApi, he, hu, h2]
  · intro u hu hne
    simp [CacheService.setApi, he, hu, hne]
  · intro u hu hemp
    simp [CacheService.setApi, he, hu, hemp]
  · intro hu
    simp [CacheService.setApi, he, hu]
  · rw [hdk]
    by_cases hc : s.dirtyKeys.contains (getApiKey e.metadata.projectId e.metadata.apiId)
    · rw [if_pos hc]
      exact List.mem_of_elem_eq_true hc
    · rw [if_neg hc]
      exact List.mem_append_right _ (List.mem_singleton.mpr rfl)
  · intro e2 okIdx
    exact syncToDisk_fail _ _ _ _
  · intro d hd
    exact syncToDisk_ok (s.setApi now e) _ e d (by rw [hpsv]; exact hd) true

/-- C8 witness: the amended write contract at a concrete input. -/
theorem C8_put_never_fails_amended_witness :
    getApiKey entA.metadata.projectId entA.metadata.apiId ∈
      ((CacheService.init {} (some ⟨[], [], [], []⟩) 0).setApi 100 entA).dirtyKeys ∧
    (∃ d2, (((CacheService.init {} (some ⟨[], [], [], []⟩) 0).setApi 100 entA).syncToDisk
          (getApiKey entA.metadata.projectId entA.metadata.apiId) entA true true).persistentStore
        = some d2 ∧
      amGet d2.apis (getApiKey entA.metadata.projectId entA.metadata.apiId) = some entA) := by
  have h := C8_put_never_fails_amended (CacheService.init {} (some ⟨[], [], [], []⟩) 0)
    100 entA (by decide)
  exact ⟨h.2.2.2.2.2.2.1, (h.2.2.2.2.2.2.2.2.2 ⟨[], [], [], []⟩ (by decide)).1⟩

/-- C6 counterexample: before the read the expired entry is physically
present in both tiers; the read returns absent and the disk tier no
longer holds the entry afterwards (the read deleted it via
removeFromDisk), contradicting the claim that the stale entry survives
the read in whichever tier held it. -/
theorem C6_expiry_read_counterexample :
    c6state.memoryCache.items.length = 1 ∧
    c6state.persistentStore.map (fun d => d.apis.length) = some 1 ∧
    (c6state.getApi 4000000 "1" 1).2 = none ∧
    (c6state.getApi 4000000 "1" 1).1.persistentStore.map (fun d => d.apis.length)
      = some 0 := by
  decide

/-- C6 (amended): a read that encounters an entry whose age exceeds the
ttl returns absent; an expired entry held in the memory tier with a
still-fresh lru clock is left physically in place by the explicit
expiry check, but an expired entry found in the disk tier is deleted
from disk by the read. -/
theorem C6_expiry_read_amended (s : CacheService) (now : Nat) (projectId : String)
    (apiId : Nat) (e : CachedApiEntry) (st : Nat)
    (he : s.enabled = true)
    (hfind : s.memoryCache.items.find? (fun p => p.1 == getApiKey projectId apiId)
        = some (getApiKey projectId apiId, e, st))
    (hfresh : ¬ s.memoryCache.ttl < now - st)
    (hexp : s.isExpired now e = true)
    (hdisk : ∀ d, s.persistentStore = some d → ∀ p ∈ d.apis,
        p.1 = getApiKey projectId apiId → s.isExpired now p.2 = true) :
    (s.getApi now projectId apiId).2 = none ∧
    ((s.getApi now projectId apiId).1.memoryCache.items.find?
        (fun p => p.1 == getApiKey projectId apiId)).isSome = true ∧
    (s.persistentEnabled = true → ∀ d, s.persistentStore = some d →
      ∀ eDisk, amGet d.apis (getApiKey projectId apiId) = some eDisk →
        (s.getApi now projectId apiId).1.persistentStore =
          some ({ d with apis := amErase d.apis (getApiKey projectId apiId) })) := by
  have hget0 : ∃ mc, s.memoryCache.get now (getApiKey projectId apiId) = (mc, some e) ∧
      mc.items = (getApiKey projectId apiId, e, if s.memoryCache.updateAgeOnGet then now else st) :: s.memoryCache.items.filter (fun p => !(p.1 == getApiKey projectId apiId)) := by
    unfold LRU.get
    rw [hfind]
    simp only
    rw [if_neg hfresh]
    exact ⟨_, rfl, rfl⟩
  obtain ⟨mc, hget, hmcitems⟩ := hget0
  have hga : s.getApi now projectId apiId = s.getApiInternal now projectId apiId := by
    unfold CacheService.getApi
    simp [he]
  rw [hga]
  unfold CacheService.getApiInternal
  simp only [hget]
  have hexp2 : CacheService.isExpired { s with memoryCache := mc } now e = true := hexp
  rw [hexp2]
  simp only [Bool.not_true, Bool.false_eq_true, if_false]
  refine ⟨?_, ?_, ?_⟩
  · exact getApiFromDisk_snd_none_of_expired _ now _
      (fun d hps p hp hk => hdisk d hps p hp hk)
  · rw [getApiFromDisk_memory_frame_of_expired { s with memoryCache := mc } now _
      (fun d hps p hp hk => hdisk d hps p hp hk)]
    show (mc.items.find? (fun p => p.1 == getApiKey projectId apiId)).isSome = true
    rw [hmcitems, List.find?_cons_of_pos _ (by simp)]
    rfl
  · intro hpe d hps eDisk hg
    have hexpd : s.isExpired now eDisk = true := by
      obtain ⟨p, hm, hk, hv⟩ := amGet_eq_some hg
      exact hv ▸ hdisk d hps p hm hk
    exact (getApiFromDisk_expired_removes { s with memoryCache := mc } now _
      d hps hpe eDisk hg hexpd).2

/-- C6 witness: the amended expiry-read behavior at a concrete input
(an expired entry in both tiers, the memory copy with a fresh lru
clock). -/
theorem C6_expiry_read_amended_witness :
    ((CacheService.init {} (some ⟨[("api:1:1", entStale)], [], [], []⟩) 50).getApi
        3600040 "1" 1).2 = none ∧
    (((CacheService.init {} (some ⟨[("api:1:1", entStale)], [], [], []⟩) 50).getApi
        3600040 "1" 1).1.memoryCache.items.find?
        (fun p => p.1 == getApiKey "1" 1)).isSome = true := by
  have h := C6_expiry_read_amended
    (CacheService.init {} (some ⟨[("api:1:1", entStale)], [], [], []⟩) 50)
    3600040 "1" 1 entStale 50 (by decide) (by decide) (by decide) (by decide) (by decide)
  exact ⟨h.1, h.2.1⟩

/-- C9: clearByUrl on a cached url removes the main entry and the
url-index entry from both tiers, but leaves every name-index and
path-index entry (memory and disk) in place: the announced wholesale
clearing of the name and path indexes is absent from the code. -/
theorem C9_clearByUrl_code_bug :
    (c9state.clearByUrl 200 "https://x/1/1").2 = true ∧
    (c9state.clearByUrl 200 "https://x/1/1").1.memoryCache.items = [] ∧
    (c9state.clearByUrl 200 "https://x/1/1").1.urlIndex.items = [] ∧
    (c9state.clearByUrl 200 "https://x/1/1").1.persistentStore.map
      (fun d => (d.apis.length, d.urlIndex.length)) = some (0, 0) ∧
    (c9state.clearByUrl 200 "https://x/1/1").1.nameIndex.items.length = 1 ∧
    (c9state.clearByUrl 200 "https://x/1/1").1.pathIndex.items.length = 1 ∧
    (c9state.clearByUrl 200 "https://x/1/1").1.persistentStore.map
      (fun d => (d.nameIndex.length, d.pathIndex.length)) = some (1, 1) := by
  decide

/-- C5 counterexample: a single successful findByUrl resolution (url
index satisfied from disk, entry satisfied from memory) increments two
hit counters — the disk hit counter and the memory hit counter — not
exactly one. -/
theorem C5_stats_counterexample :
    (c5state.findByUrl 300 "https://x/1/1").2.isSome = true ∧
    (c5state.findByUrl 300 "https://x/1/1").1.stats.persHits
      = c5state.stats.persHits + 1 ∧
    (c5state.findByUrl 300 "https://x/1/1").1.stats.memHits
      = c5state.stats.memHits + 1 := by
  decide

/-- C5 (amended): the primary lookup getApi (cache enabled) moves
exactly one counter — the hit counter of the satisfying tier on
success, the memory miss counter on failure; index-based lookups can
additionally count one disk hit for the index probe; and no lookup ever
touches the separate disk miss counter. -/
theorem C5_stats_amended (s : CacheService) (now : Nat)
    (projectId name method path url : String) (apiId : Nat)
    (he : s.enabled = true) :
    ((s.getApi now projectId apiId).2 = none →
       (s.getApi now projectId apiId).1.stats =
         { s.stats with memMisses := s.stats.memMisses + 1 }) ∧
    (∀ e, (s.getApi now projectId apiId).2 = some (e, CacheSource.memory) →
       (s.getApi now projectId apiId).1.stats =
         { s.stats with memHits := s.stats.memHits + 1 }) ∧
    (∀ e, (s.getApi now projectId apiId).2 = some (e, CacheSource.disk) →
       (s.getApi now projectId apiId).1.stats =
         { s.stats with persHits := s.stats.persHits + 1 }) ∧
    (s.getApi now projectId apiId).1.stats.persMisses = s.stats.persMisses ∧
    (s.findByUrl now url).1.stats.persMisses = s.stats.persMisses ∧
    (s.findByName now projectId name).1.stats.persMisses = s.stats.persMisses ∧
    (s.findByPath now projectId method path).1.stats.persMisses = s.stats.persMisses := by
  have hga : s.getApi now projectId apiId = s.getApiInternal now projectId apiId := by
    unfold CacheService.getApi
    simp [he]
  rw [hga]
  refine ⟨?_, ?_, ?_, getApiInternal_persMisses s now projectId apiId,
    findByUrl_persMisses s now url, findByName_persMisses s now projectId name,
    findByPath_persMisses s now projectId method path⟩
  · intro hn
    rcases getApiInternal_stats s now projectId apiId with ⟨-, h2⟩ | ⟨e, h1, -⟩ | ⟨e, h1, -⟩
    · exact h2
    · rw [h1] at hn; exact absurd hn (by simp)
    · rw [h1] at hn; exact absurd hn (by simp)
  · intro e heq
    rcases getApiInternal_stats s now projectId apiId with ⟨h1, -⟩ | ⟨e2, h1, h2⟩ | ⟨e2, h1, -⟩
    · rw [h1] at heq; exact absurd heq (by simp)
    · exact h2
    · rw [h1] at heq; simp at heq
  · intro e heq
    rcases getApiInternal_stats s now projectId apiId with ⟨h1, -⟩ | ⟨e2, h1, -⟩ | ⟨e2, h1, h2⟩
    · rw [h1] at heq; exact absurd heq (by simp)
    · rw [h1] at heq; simp at heq
    · exact h2

/-- C5 witness: the amended counter contract at a concrete input. -/
theorem C5_stats_amended_witness :
    (c5state.getApi 300 "1" 1).1.stats =
      { c5state.stats with memHits := c5state.stats.memHits + 1 } ∧
    (c5state.findByUrl 300 "https://x/1/1").1.stats.persMisses
      = c5state.stats.persMisses := by
  have h := C5_stats_amended c5state 300 "1" "Login" "post" "/login"
    "https://x/1/1" 1 (by decide)
  exact ⟨h.2.1 entA (by decide), h.2.2.2.2.1⟩

/-- A lookup whose memory probe and disk probe both come up empty
reports absent. -/
theorem lookupSpec_none_of_none (now : Nat) (enabled : Bool) (mttl : Nat)
    (expiredOf : CachedApiEntry → Bool) (diskEnabled : Bool) :
    lookupSpec now enabled none mttl expiredOf diskEnabled none = none := by
  unfold lookupSpec
  cases enabled <;> cases diskEnabled <;> simp

/-- C7 counterexample: clearing project 1 in a memory-only cache also
clears the entry of the distinct project 1:2 (its keys share the prefix
api:1:), so an entry of another project id stops being retrievable. -/
theorem C7_clearProject_counterexample :
    (c7state.getApi 200 "1:2" 3).2.isSome = true ∧
    ("1:2" ≠ "1") ∧
    ((c7state.clearProject "1").1.getApi 200 "1:2" 3).2 = none := by
  decide

/-- C7 (amended): in a state whose disk keys agree with their entries'
metadata and whose project ids contain no colon, clearProject(pid) makes
every getApi(pid, id) report absent; and the lookup result of every
other project whose primary keys do not start with the cleared
project's key prefix api:pid: (true whenever project ids contain no
colon) is unchanged — in particular every non-expired entry of such a
project stays retrievable from whichever tier held it. -/
theorem C7_clearProject_amended (s : CacheService) (now : Nat) (pid : String)
    (apiId : Nat)
    (hcons : ∀ d, s.persistentStore = some d → ∀ p ∈ d.apis,
        p.1 = getApiKey p.2.metadata.projectId p.2.metadata.apiId)
    (hpidc : ':' ∉ pid.data)
    (hdiskc : ∀ d, s.persistentStore = some d → ∀ p ∈ d.apis,
        ':' ∉ p.2.metadata.projectId.data) :
    ((s.clearProject pid).1.getApi now pid apiId).2 = none ∧
    (∀ pid2 apiId2,
       strStartsWith (getApiKey pid2 apiId2) ("api:" ++ pid ++ ":") = false →
       ((s.clearProject pid).1.getApi now pid2 apiId2).2 =
         (s.getApi now pid2 apiId2).2) := by
  obtain ⟨hmi, hmt, hen, hpe, htt, hps⟩ := clearProject_state s pid
  have hie : (fun v => (s.clearProject pid).1.isExpired now v)
      = (fun v => s.isExpired now v) := by
    funext v
    unfold CacheService.isExpired
    rw [htt]
  constructor
  · rw [getApi_snd_eq_lookupSpec]
    have hfm : ((s.clearProject pid).1.memoryCache.items.find?
        (fun p => p.1 == getApiKey pid apiId)) = none := by
      rw [hmi]
      rw [List.find?_eq_none.mpr]
      intro a ha hbeq
      obtain ⟨hmem, hpred⟩ := List.mem_filter.mp ha
      have hak : a.1 = getApiKey pid apiId := by simpa using hbeq
      have hsw : strStartsWith (getApiKey pid apiId) ("api:" ++ pid ++ ":") = true :=
        strStartsWith_append ("api:" ++ pid ++ ":") (toString apiId)
      rw [hak, hsw] at hpred
      simp at hpred
    rw [hfm, hen, hmt, hie, hpe, hps]
    cases hd : s.persistentStore with
    | none => exact lookupSpec_none_of_none now s.enabled s.memoryCache.ttl _ _
    | some d =>
      have ham : amGet (d.apis.filter (fun p => !(p.2.metadata.projectId == pid)))
          (getApiKey pid apiId) = none := by
        unfold amGet
        rw [List.find?_eq_none.mpr]
        · rfl
        · intro a ha hbeq
          obtain ⟨hmem, hpred⟩ := List.mem_filter.mp ha
          have hak : a.1 = getApiKey pid apiId := by simpa using hbeq
          have hk := hcons d hd a hmem
          have hproj : a.2.metadata.projectId = pid :=
            getApiKey_inj_projectId (hdiskc d hd a hmem) hpidc (by rw [← hk, hak])
          rw [hproj] at hpred
          simp at hpred
      simp only [Option.map_some', Option.some_bind, Option.isSome_some]
      rw [ham]
      exact lookupSpec_none_of_none now s.enabled s.memoryCache.ttl _ _
  · intro pid2 apiId2 hpref
    rw [getApi_snd_eq_lookupSpec, getApi_snd_eq_lookupSpec]
    have hfm : ((s.clearProject pid).1.memoryCache.items.find?
        (fun p => p.1 == getApiKey pid2 apiId2))
        = s.memoryCache.items.find? (fun p => p.1 == getApiKey pid2 apiId2) := by
      rw [hmi]
      apply find?_filter_eq
      intro a ha hpa
      have hak : a.1 = getApiKey pid2 apiId2 := by simpa using hpa
      rw [hak, hpref]
      rfl
    rw [hfm, hen, hmt, hie, hpe, hps]
    cases hd : s.persistentStore with
    | none => rfl
    | some d =>
      have ham : amGet (d.apis.filter (fun p => !(p.2.metadata.projectId == pid)))
          (getApiKey pid2 apiId2) = amGet d.apis (getApiKey pid2 apiId2) := by
        unfold amGet
        rw [find?_filter_eq]
        intro a ha hpa
        have hak : a.1 = getApiKey pid2 apiId2 := by simpa using hpa
        have hk := hcons d hd a ha
        by_cases hpp : a.2.metadata.projectId = pid
        · exfalso
          have hkey : getApiKey pid2 apiId2 = getApiKey pid a.2.metadata.apiId := by
            rw [← hak, hk, hpp]
          have hsw : strStartsWith (getApiKey pid2 apiId2)
              ("api:" ++ pid ++ ":") = true := by
            rw [hkey]
            exact strStartsWith_append ("api:" ++ pid ++ ":")
              (toString a.2.metadata.apiId)
          simp [hsw] at hpref
        · simp [hpp]
      simp only [Option.map_some', Option.some_bind, Option.isSome_some, ham]

/-- C7 witness: the amended clear contract at a concrete input (an
entry of project 1 and an entry of project 2, in both tiers). -/
theorem C7_clearProject_amended_witness :
    (((CacheService.init {}
        (some ⟨[("api:1:1", entA), ("api:2:3", entOther)], [], [], []⟩)
        150).clearProject "1").1.getApi 200 "1" 1).2 = none ∧
    (((CacheService.init {}
        (some ⟨[("api:1:1", entA), ("api:2:3", entOther)], [], [], []⟩)
        150).clearProject "1").1.getApi 200 "2" 3).2 =
      ((CacheService.init {}
        (some ⟨[("api:1:1", entA), ("api:2:3", entOther)], [], [], []⟩)
        150).getApi 200 "2" 3).2 := by
  have h := C7_clearProject_amended
    (CacheService.init {} (some ⟨[("api:1:1", entA), ("api:2:3", entOther)], [], [], []⟩) 150)
    200 "1" 1 (by decide) (by decide) (by decide)
  exact ⟨h.1, h.2 "2" 3 (by decide)⟩

/-- C1 witness: the amended roundtrip at a concrete input. -/
theorem C1_roundtrip_amended_witness :
    (((CacheService.init {} none 0).setApi 100 entA).getApi 200
        entA.metadata.projectId entA.metadata.apiId).2 = some (entA, CacheSource.memory) :=
  C1_roundtrip_amended (CacheService.init {} none 0) 100 200 entA
    (by decide) (by decide) (by decide) (by decide)


/-- C2: an entry whose age since cachedAt exceeds the ttl is reported
absent by the primary-key lookup even while physically present in the
memory tier or the disk tier; the expiry predicate is a single,
tier-independent test of the age against the ttl. -/
theorem C2_expired_entries_absent (s : CacheService) (now : Nat)
    (projectId : String) (apiId : Nat)
    (hm : ∀ p ∈ s.memoryCache.items, p.1 = getApiKey projectId apiId →
            s.isExpired now p.2.1 = true)
    (hd : ∀ d, s.persistentStore = some d → ∀ p ∈ d.apis,
            p.1 = getApiKey projectId apiId → s.isExpired now p.2 = true) :
    (s.getApi now projectId apiId).2 = none ∧
    ∀ e : CachedApiEntry, s.isExpired now e = decide (s.ttl < now - e.metadata.cachedAt) := by
  refine ⟨?_, fun e => rfl⟩
  have hint : (s.getApiInternal now projectId apiId).2 = none := by
    simp only [CacheService.getApiInternal]
    cases hr : s.memoryCache.get now (getApiKey projectId apiId) with
    | mk mc got =>
      cases got with
      | none =>
        exact getApiFromDisk_snd_none_of_expired _ now _ (fun d hps p hp hk => hd d hps p hp hk)
      | some e =>
        obtain ⟨p, hp, hk, hv⟩ := LRU.get_eq_some hr
        have hexp : CacheService.isExpired { s with memoryCache := mc } now e = true := by
          have := hm p hp hk
          rw [hv] at this
          exact this
        simp only [hexp, Bool.not_true, Bool.false_eq_true, if_false]
        exact getApiFromDisk_snd_none_of_expired _ now _ (fun d hps p hp hk => hd d hps p hp hk)
  unfold CacheService.getApi
  by_cases he : s.enabled
  · simpa [he] using hint
  · simp [he]

/-- C2 witness: a concrete cache holding an entry cached at time 0 in
both tiers, read at a time past the ttl. -/
theorem C2_expired_entries_absent_witness :
    ((CacheService.init {} (some ⟨[("api:1:1", entStale)], [], [], []⟩) 50).getApi
        4000000 "1" 1).2 = none := by
  have h := C2_expired_entries_absent
    (CacheService.init {} (some ⟨[("api:1:1", entStale)], [], [], []⟩) 50)
    4000000 "1" 1 (by decide) (by decide)
  exact h.1

/-- C10: when the cache is constructed with enabled set to false, every
lookup (getApi, findByUrl, findByName, findByPath) returns absent, and
setApi and clearByUrl leave the whole cache state (tiers, indexes, dirty
set, statistics) unchanged. -/
theorem C10_disabled_cache_inert (s : CacheService) (now : Nat)
    (projectId name method path url : String) (apiId : Nat) (e : CachedApiEntry)
    (h : s.enabled = false) :
    s.getApi now projectId apiId = (s, none) ∧
    s.findByUrl now url = (s, none) ∧
    s.findByName now projectId name = (s, none) ∧
    s.findByPath now projectId method path = (s, none) ∧
    s.setApi now e = s ∧
    s.clearByUrl now url = (s, false) := by
  refine ⟨?_, ?_, ?_, ?_, ?_, ?_⟩ <;>
    simp [CacheService.getApi, CacheService.findByUrl, CacheService.findByName,
          CacheService.findByPath, CacheService.setApi, CacheService.clearByUrl, h]

/-- C10 witness: a cache constructed with enabled := false at a concrete
input. -/
theorem C10_disabled_cache_inert_witness :
    (CacheService.init { enabled := some false } none 0).getApi 5 "1" 1 =
      (CacheService.init { enabled := some false } none 0, none) ∧
    (CacheService.init { enabled := some false } none 0).setApi 5 entA =
      CacheService.init { enabled := some false } none 0 := by
  have h := C10_disabled_cache_inert (CacheService.init { enabled := some false } none 0)
    5 "1" "Login" "post" "/login" "https://x/1/1" 1 entA (by decide)
  exact ⟨h.1, h.2.2.2.2.1⟩
